import Mathlib

/-!
Verification of the FLP line protocol engine (src/flp.h, namespace finix).

Strings, buffers and command lines are modelled as lists of characters.
Numeric argument values live in the domain NumVal: a finite value, a signed
infinity, or NaN, matching the values strtof can produce; finite values are
idealised as exact rationals (the code carries them in a single float;
rounding and overflow of the float format are not modelled).  External
variables bound by ArgumentSpec setters are modelled as a store mapping a
cell name to its current numeric value; the C++ setter closures
(assign_to = (int)v, assign_to = v) become explicit store updates.
-/

namespace Flp

/-- Characters of a string literal. -/
def chars (s : String) : List Char := s.data

abbrev Str := List Char

/-! ## Value coercion (flp.h lines 213 to 229)

The code calls strtol(value, p, 10) and strtof(value, p) and treats the
conversion as successful only when p ends at the terminating null.  Both
library functions take the longest valid prefix, so the conversion flag is
set exactly when the whole value substring matches the respective grammar:
for strtol, optional leading whitespace, an optional sign and a nonempty
digit string; for strtof, optional leading whitespace, an optional sign and
then a decimal mantissa with optional exponent, a hexadecimal mantissa with
optional binary exponent, inf, infinity, or nan with an optional
parenthesised character sequence, all case-insensitive.  The empty
substring (where the C functions would leave p at the terminating null
without converting) never reaches the parses: flp.h line 208 rejects an
empty value before coercion. -/

/-- The whitespace characters strtol and strtof skip: isspace in the C
locale.  Only the space character can never occur inside a token (the
tokenizer splits on it); the others reach the parses. -/
def isCSpace (c : Char) : Bool :=
  c == ' ' || c == '\t' || c == '\n' || c == Char.ofNat 11 || c == Char.ofNat 12 || c == '\r'

/-- Numeric value of a decimal digit character. -/
def digitVal (c : Char) : Nat := c.toNat - 48

/-- Value of a list of decimal digits, most significant first. -/
def natVal (cs : List Char) : Nat :=
  cs.foldl (fun acc c => acc * 10 + digitVal c) 0

/-- Accumulating digit scan: succeeds only if every character is a digit. -/
def natDigitsAux (acc : Nat) : List Char → Option Nat
  | [] => some acc
  | c :: rest => if c.isDigit then natDigitsAux (acc * 10 + digitVal c) rest else none

/-- Parse a nonempty all-digit string. -/
def natDigits : List Char → Option Nat
  | [] => none
  | c :: rest => natDigitsAux 0 (c :: rest)

/-- An optional single sign followed by a nonempty digit string consuming
the whole substring; also the form of a decimal or binary exponent part. -/
def parseSignedDigits (cs : Str) : Option Int :=
  match cs with
  | [] => none
  | c :: rest =>
    if c = '+' then (natDigits rest).map (fun n => (n : Int))
    else if c = '-' then (natDigits rest).map (fun n => -(n : Int))
    else (natDigits (c :: rest)).map (fun n => (n : Int))

/-- Full-substring integer parse: strtol(value, p, 10) with p consuming the
whole substring.  Leading whitespace is skipped, then an optional single
sign and a nonempty digit string must reach the end. -/
def parseIntFull (cs : Str) : Option Int :=
  parseSignedDigits (cs.dropWhile isCSpace)

/-- Ten to an integer power, as a rational. -/
def qpow10 : Int → ℚ
  | .ofNat n => (10 : ℚ) ^ n
  | .negSucc n => ((10 : ℚ) ^ (n + 1))⁻¹

/-- Two to an integer power, as a rational. -/
def qpow2 : Int → ℚ
  | .ofNat n => (2 : ℚ) ^ n
  | .negSucc n => ((2 : ℚ) ^ (n + 1))⁻¹

/-- The value domain of the float that carries a parsed argument: a finite
value (idealised as an exact rational), a signed infinity, or NaN. -/
inductive NumVal where
  | fin (q : ℚ)
  | inf (neg : Bool)
  | nan
deriving DecidableEq

/-- Negation of a parsed value, for a leading minus sign. -/
def NumVal.neg : NumVal → NumVal
  | .fin q => .fin (-q)
  | .inf b => .inf (!b)
  | .nan => .nan

/-- Decimal mantissa: digit string with an optional decimal point; at least
one digit on one side of the point. -/
def parseMantissa (cs : Str) : Option ℚ :=
  let ip := cs.takeWhile Char.isDigit
  let rest := cs.dropWhile Char.isDigit
  match rest with
  | [] => if ip.isEmpty then none else some ((natVal ip : ℕ) : ℚ)
  | c :: fp =>
    if c = '.' then
      if fp.all Char.isDigit && !(ip.isEmpty && fp.isEmpty) then
        some ((natVal ip : ℚ) + (natVal fp : ℚ) / (10 : ℚ) ^ fp.length)
      else none
    else none

/-- Unsigned decimal float body: mantissa, optionally followed by a
complete exponent part: e, an optional sign and digits (the input has been
lowercased). -/
def parseFloatNoSign (cs : Str) : Option ℚ :=
  let mant := cs.takeWhile (fun c => !(c == 'e' || c == 'E'))
  let rest := cs.dropWhile (fun c => !(c == 'e' || c == 'E'))
  match rest with
  | [] => parseMantissa mant
  | _ :: expPart =>
    match parseMantissa mant, parseSignedDigits expPart with
    | some m, some e => some (m * qpow10 e)
    | _, _ => none

/-- Hexadecimal digit test. -/
def isHexDigit (c : Char) : Bool :=
  c.isDigit || ('a' ≤ c && c ≤ 'f') || ('A' ≤ c && c ≤ 'F')

/-- Numeric value of a hexadecimal digit character (lowercased input). -/
def hexDigitVal (c : Char) : Nat :=
  if c.isDigit then c.toNat - 48 else c.toNat - 87

/-- Value of a list of hexadecimal digits, most significant first. -/
def hexVal (cs : List Char) : Nat :=
  cs.foldl (fun acc c => acc * 16 + hexDigitVal c) 0

/-- Hexadecimal mantissa: hex digit string with an optional period; at
least one hex digit on one side of the period. -/
def parseHexMantissa (cs : Str) : Option ℚ :=
  let ip := cs.takeWhile isHexDigit
  let rest := cs.dropWhile isHexDigit
  match rest with
  | [] => if ip.isEmpty then none else some ((hexVal ip : ℕ) : ℚ)
  | c :: fp =>
    if c = '.' then
      if fp.all isHexDigit && !(ip.isEmpty && fp.isEmpty) then
        some ((hexVal ip : ℚ) + (hexVal fp : ℚ) / (16 : ℚ) ^ fp.length)
      else none
    else none

/-- Hexadecimal mantissa with an optional binary exponent part: p, an
optional sign and decimal digits (the input has been lowercased and the 0x
already removed). -/
def parseHexMantExp (cs : Str) : Option ℚ :=
  let mant := cs.takeWhile (fun c => !(c == 'p'))
  let rest := cs.dropWhile (fun c => !(c == 'p'))
  match rest with
  | [] => parseHexMantissa mant
  | _ :: expPart =>
    match parseHexMantissa mant, parseSignedDigits expPart with
    | some m, some e => some (m * qpow2 e)
    | _, _ => none

/-- The nan(n-char-seq) form of strtof: nan followed by a parenthesised
sequence of letters, digits and underscores (lowercased input). -/
def isNanSeq (cs : Str) : Bool :=
  cs.take 4 == chars "nan(" && cs.getLast? == some ')'
    && ((cs.drop 4).dropLast.all fun c => c.isAlphanum || c == '_')

/-- The strtof body after sign removal, on the lowercased substring: inf or
infinity, nan with an optional parenthesised sequence, a hexadecimal float
after 0x, or a decimal float; in every case the whole substring must be
consumed. -/
def parseFloatBody (cs : Str) : Option NumVal :=
  if cs == chars "inf" || cs == chars "infinity" then some (.inf false)
  else if cs == chars "nan" || isNanSeq cs then some .nan
  else
    match cs with
    | '0' :: 'x' :: rest => (parseHexMantExp rest).map NumVal.fin
    | _ => (parseFloatNoSign cs).map NumVal.fin

/-- Full-substring float parse: strtof(value, p) with p consuming the whole
substring.  Leading whitespace is skipped, case is ignored, an optional
single sign applies to the body. -/
def parseFloatFull (cs : Str) : Option NumVal :=
  match (cs.dropWhile isCSpace).map Char.toLower with
  | '+' :: rest => parseFloatBody rest
  | '-' :: rest => (parseFloatBody rest).map NumVal.neg
  | low => parseFloatBody low

/-! ## Data model (flp.h lines 51 to 93) -/

/-- External bound variables: each ArgumentSpec setter in the C++ code
writes through a captured reference; the model names the referenced cell
and keeps all cells in one store. -/
abbrev Store := Str → NumVal

/-- One store cell updated. -/
def updateStore (st : Store) (t : Str) (v : NumVal) : Store :=
  fun n => if n = t then v else st n

/-- ArgumentSpec (flp.h lines 51 to 69).  The int-reference constructor
yields is_float = false and a setter writing (int)v; the float-reference
constructor yields is_float = true and a setter writing v.  The setter is
represented by its target cell plus the is_float flag; the validator is an
optional predicate on the numeric value. -/
structure ArgumentSpec where
  optional : Bool := true
  is_float : Bool := false
  target : Str
  validator : Option (NumVal → Bool) := none

/-- Truncation toward zero, the effect of the C cast (int)v. -/
def ratTrunc (q : ℚ) : Int := q.num.tdiv (q.den : Int)

/-- The C cast (int)v of the integer setter.  A non-finite value never
reaches this cast in a program run: the integer setter is applied only to
declared integer arguments, which require an integer-valued token, and such
a token parses as a finite float value. -/
def NumVal.truncInt : NumVal → NumVal
  | .fin q => .fin ((ratTrunc q : Int) : ℚ)
  | v => v

/-- The setter of an ArgumentSpec applied to the store: the int setter
writes (int)v, the float setter writes v. -/
def applySpec (sp : ArgumentSpec) (v : NumVal) (st : Store) : Store :=
  if sp.is_float then updateStore st sp.target v
  else updateStore st sp.target v.truncInt

/-- CommandSpec (flp.h lines 75 to 81): argument name to spec mapping plus
a callback that may be null; only the presence of the callback is
observable in the model, together with the two maps it would receive. -/
structure CommandSpec where
  arg_map : List (Str × ArgumentSpec)
  has_callback : Bool

abbrev RawMap := List (Str × NumVal)
abbrev CommandMap := List (Str × CommandSpec)

/-- Exact-name lookup, the find of the std::unordered_map members. -/
def alistFind {α : Type _} : List (Str × α) → Str → Option α
  | [], _ => none
  | (k, w) :: rest, n => if n = k then some w else alistFind rest n

/-- Map write map[name] = val with last write winning. -/
def mapInsert : RawMap → Str → NumVal → RawMap
  | [], n, v => [(n, v)]
  | (k, w) :: rest, n, v =>
    if n = k then (n, v) :: rest else (k, w) :: mapInsert rest n v

/-- The three exception classes of flp.h lines 37 to 48. -/
inductive FlpException where
  | unknownQualifierError (msg : Str)
  | invalidArgumentError (msg : Str)
  | validatorError (msg : Str)
deriving DecidableEq

/-- The class of an exception, forgetting the message text. -/
inductive ErrClass where
  | unknownQualifier
  | invalidArgument
  | validator
deriving DecidableEq

/-- Classify an exception by its C++ exception class. -/
def FlpException.cls : FlpException → ErrClass
  | .unknownQualifierError _ => .unknownQualifier
  | .invalidArgumentError _ => .invalidArgument
  | .validatorError _ => .validator

/-! ## Tokenizer (flp.h lines 171 to 185)

The loop splits the command line at runs of spaces, dropping leading and
trailing spaces, so the result is the list of maximal nonempty space-free
substrings in order. -/

/-- Tokenizer worker; cur holds the characters of the token being read, in
reverse. -/
def tokenizeAux : List Char → Str → List Str
  | cur, [] => if cur.isEmpty then [] else [cur.reverse]
  | cur, c :: rest =>
    if c = ' ' then
      if cur.isEmpty then tokenizeAux [] rest else cur.reverse :: tokenizeAux [] rest
    else tokenizeAux (c :: cur) rest

/-- Split a command line into its whitespace-separated tokens. -/
def tokenize (line : Str) : List Str := tokenizeAux [] line

/-- token.find of the equals sign (flp.h line 201): name is the part before
the first equals sign, value everything after it. -/
def splitEq : Str → Option (Str × Str)
  | [] => none
  | c :: rest =>
    if c = '=' then some ([], rest)
    else (splitEq rest).map (fun p => (c :: p.1, p.2))

/-! ## Argument resolution (flp.h lines 198 to 258) -/

/-- The numeric value the code carries forward (flp.h lines 213 to 225):
float_val is the float parse result when it succeeds, otherwise the value
from the integer parse. -/
def floatValOf (v : Str) : NumVal :=
  match parseFloatFull v with
  | some nv => nv
  | none => .fin (((parseIntFull v).getD 0 : Int) : ℚ)

/-- The per-token loop of ValidateApply: split at the equals sign, reject an
empty value, coerce by the two full-substring parses, reject a non-numeric
value, route undeclared names to the undefined map, type-check and validate
declared names into the predefined map. -/
def resolveArgs (amap : List (Str × ArgumentSpec)) :
    List Str → RawMap → RawMap → Except FlpException (RawMap × RawMap)
  | [], pre, und => .ok (pre, und)
  | token :: rest, pre, und =>
    match splitEq token with
    | none => .error (.invalidArgumentError (chars "Invalid argument: " ++ token))
    | some (arg_name, arg_value) =>
      if arg_value.isEmpty then
        .error (.invalidArgumentError (token ++ chars " incomplete pair"))
      else
        if (parseIntFull arg_value).isNone && (parseFloatFull arg_value).isNone then
          .error (.invalidArgumentError (token ++ chars " value is not numeric"))
        else
          match alistFind amap arg_name with
          | none => resolveArgs amap rest pre (mapInsert und arg_name (floatValOf arg_value))
          | some sp =>
            if !sp.is_float && (parseIntFull arg_value).isNone then
              .error (.invalidArgumentError (token ++ chars "  should be int"))
            else
              match sp.validator with
              | none => resolveArgs amap rest (mapInsert pre arg_name (floatValOf arg_value)) und
              | some validator =>
                if validator (floatValOf arg_value) then
                  resolveArgs amap rest (mapInsert pre arg_name (floatValOf arg_value)) und
                else .error (.validatorError (token ++ chars " validation failed"))

/-- The required-argument scan of flp.h lines 261 to 267: the first declared
argument that is not optional and absent from the predefined map. -/
def firstMissingRequired : List (Str × ArgumentSpec) → RawMap → Option Str
  | [], _ => none
  | (n, sp) :: rest, pre =>
    if !sp.optional && (alistFind pre n).isNone then some n
    else firstMissingRequired rest pre

/-- The apply loop of flp.h lines 271 to 273: every predefined entry is
written through the setter of its spec.  Every predefined key was placed by
a successful arg_map lookup, so the none branch is unreachable. -/
def applyAll (amap : List (Str × ArgumentSpec)) : RawMap → Store → Store
  | [], st => st
  | (n, v) :: rest, st =>
    match alistFind amap n with
    | some sp => applyAll amap rest (applySpec sp v st)
    | none => applyAll amap rest st

/-- ValidateApply (flp.h lines 171 to 280).  On success the store reflects
every setter call and the payload carries the two maps handed to the
callback when one is registered; on any failure the original store is
returned and no callback record is produced.  The empty-token-list branch
is unreachable from Process, which filters blank lines before calling; the
C++ code indexes tokens[0] unconditionally there. -/
def ValidateApply (cm : CommandMap) (st : Store) (cmd_line : Str) :
    Store × Except FlpException (Option (RawMap × RawMap)) :=
  match tokenize cmd_line with
  | [] => (st, .error (.unknownQualifierError (chars "Unknown qualifier")))
  | qualifier :: argTokens =>
    match alistFind cm qualifier with
    | none => (st, .error (.unknownQualifierError (chars "Unknown qualifier")))
    | some command =>
      match resolveArgs command.arg_map argTokens [] [] with
      | .error e => (st, .error e)
      | .ok (pre, und) =>
        match firstMissingRequired command.arg_map pre with
        | some name => (st, .error (.invalidArgumentError (name ++ chars " is required")))
        | none =>
          (applyAll command.arg_map pre st,
           .ok (if command.has_callback then some (pre, und) else none))

/-! ## Process (flp.h lines 286 to 304) -/

/-- buf_.find(delim) and the erase of the prefix: the characters before the
first delimiter and those after it. -/
def splitAtDelim (d : Char) : Str → Option (Str × Str)
  | [] => none
  | c :: rest =>
    if c = d then some ([], rest)
    else (splitAtDelim d rest).map (fun p => (c :: p.1, p.2))

/-- Outcome of one Process call: false with no line consumed, true with the
callback record of the processed line, or a propagated exception. -/
inductive ProcessResult where
  | noCommand
  | ok (callbackArgs : Option (RawMap × RawMap))
  | err (e : FlpException)
deriving DecidableEq

/-- An exception from ValidateApply propagates through Process. -/
def liftRes : Except FlpException (Option (RawMap × RawMap)) → ProcessResult
  | .ok c => .ok c
  | .error e => .err e

/-- The while loop of Process, with an explicit iteration bound.  Each pass
erases at least one character from the buffer, so any fuel above the buffer
length makes the zero-fuel branch unreachable. -/
def ProcessGo (cm : CommandMap) (d : Char) : Nat → Store → Str → Str × Store × ProcessResult
  | 0, st, buf => (buf, st, .noCommand)
  | fuel + 1, st, buf =>
    match splitAtDelim d buf with
    | none => (buf, st, .noCommand)
    | some (cmd_str, rest) =>
      if cmd_str.all (fun c => c == ' ') then ProcessGo cm d fuel st rest
      else (rest, (ValidateApply cm st cmd_str).1, liftRes (ValidateApply cm st cmd_str).2)

/-- Process on a buffer: returns the remaining buffer, the store after any
setter calls, and the result of the call. -/
def ProcessBuf (cm : CommandMap) (d : Char) (st : Store) (buf : Str) :
    Str × Store × ProcessResult :=
  ProcessGo cm d (buf.length + 1) st buf

/-- RegisterCommand (flp.h lines 307 to 314): try_emplace when the qualifier
is absent, otherwise an InvalidArgumentError and the map is untouched. -/
def RegisterCommand (cm : CommandMap) (q : Str) (amap : List (Str × ArgumentSpec))
    (hasCb : Bool) : CommandMap × Except FlpException Unit :=
  if (alistFind cm q).isNone then (cm ++ [(q, ⟨amap, hasCb⟩)], .ok ())
  else (cm, .error (.invalidArgumentError (q ++ chars " is already registered")))

/-! ## Engine (flp.h lines 141 to 168) -/

/-- The protocol engine state observable by Feed and Process: the delimiter,
the input buffer and the command registry. -/
structure Engine where
  delim : Char
  buf : Str
  command_map : CommandMap

/-- Feed (flp.h lines 157 to 162): append to the buffer, no parsing. -/
def Feed (e : Engine) (s : Str) : Engine := { e with buf := e.buf ++ s }

/-- Feed a list of chunks in order. -/
def FeedAll (e : Engine) (chunks : List Str) : Engine := chunks.foldl Feed e

/-- One Process call on the engine. -/
def ProcessE (e : Engine) (st : Store) : Engine × Store × ProcessResult :=
  let r := ProcessBuf e.command_map e.delim st e.buf
  ({ e with buf := r.1 }, r.2.1, r.2.2)

/-- n successive Process calls, collecting the sequence of outcomes. -/
def ProcessN : Nat → Engine → Store → Engine × Store × List ProcessResult
  | 0, e, st => (e, st, [])
  | n + 1, e, st =>
    let r := ProcessE e st
    let rs := ProcessN n r.1 r.2.1
    (rs.1, rs.2.1, r.2.2 :: rs.2.2)

/-! ## Spec-side description of buffer consumption

consumeSpec names the first complete non-blank line of the buffer and the
unconsumed suffix after its delimiter, skipping any complete blank lines in
front of it.  It is the specification that claim C2 measures ProcessBuf
against. -/

/-- Bounded scan for the first complete non-blank line. -/
def consumeSpecGo (d : Char) : Nat → Str → Option (Str × Str)
  | 0, _ => none
  | fuel + 1, buf =>
    match splitAtDelim d buf with
    | none => none
    | some (line, rest) =>
      if line.all (fun c => c == ' ') then consumeSpecGo d fuel rest
      else some (line, rest)

/-- First complete non-blank line of the buffer and the suffix after its
delimiter. -/
def consumeSpec (d : Char) (buf : Str) : Option (Str × Str) :=
  consumeSpecGo d (buf.length + 1) buf

/-- Buffers built only from blank complete lines: runs of spaces each
terminated by the delimiter.  The pending flag records whether a space run
is still waiting for its delimiter. -/
def blanksOnlyAux (d : Char) : Bool → Str → Bool
  | pending, [] => !pending
  | _, c :: rest =>
    if c = d then blanksOnlyAux d false rest
    else if c = ' ' then blanksOnlyAux d true rest
    else false

/-- The buffer consists solely of delimiters and space runs each terminated
by a delimiter. -/
def blanksOnly (d : Char) (buf : Str) : Bool := blanksOnlyAux d false buf

/-- Success test on an Except value. -/
def isOkB {ε α : Type _} : Except ε α → Bool
  | .ok _ => true
  | .error _ => false

/-- Error component of an Except value. -/
def errPart {ε α : Type _} : Except ε α → Option ε
  | .ok _ => none
  | .error e => some e

/-! ## Concrete collaborators used to witness the theorems -/

/-- The all-zero store. -/
def st0 : Store := fun _ => .fin 0

/-- A registry with one command taking two optional integer arguments. -/
def cmW1 : CommandMap :=
  [(chars "test",
    ⟨[(chars "a", ⟨true, false, chars "x", none⟩),
      (chars "b", ⟨true, false, chars "y", none⟩)], true⟩)]

/-! ## Generic lemmas about the Process loop -/

theorem splitAtDelim_rest_length {d : Char} :
    ∀ {buf line rest : Str}, splitAtDelim d buf = some (line, rest) →
      rest.length < buf.length := by
  intro buf
  induction buf with
  | nil => intro line rest h; simp [splitAtDelim] at h
  | cons c cs ih =>
    intro line rest h
    by_cases hc : c = d
    · simp [splitAtDelim, hc] at h
      simp [← h.2]
    · simp only [splitAtDelim, if_neg hc, Option.map_eq_some'] at h
      obtain ⟨⟨a, b⟩, hab, hfb⟩ := h
      have := ih hab
      simp only [Prod.mk.injEq] at hfb
      simp [← hfb.2]
      omega

theorem processGo_fuel_eq (cm : CommandMap) (d : Char) :
    ∀ (f1 f2 : Nat) (st : Store) (buf : Str), buf.length < f1 → buf.length < f2 →
      ProcessGo cm d f1 st buf = ProcessGo cm d f2 st buf := by
  intro f1
  induction f1 with
  | zero => intro f2 st buf h1 h2; omega
  | succ g ih =>
    intro f2 st buf h1 h2
    cases f2 with
    | zero => omega
    | succ g2 =>
      simp only [ProcessGo]
      cases hs : splitAtDelim d buf with
      | none => rfl
      | some p =>
        obtain ⟨line, rest⟩ := p
        have hlt := splitAtDelim_rest_length hs
        by_cases hb : (line.all (fun c => c == ' ')) = true
        · simp only [hb, if_true]
          exact ih g2 st rest (by omega) (by omega)
        · rw [Bool.not_eq_true] at hb
          simp [hb]

/-- Process on a buffer without a delimiter: no command processed. -/
theorem ProcessBuf_delim_none {cm : CommandMap} {d : Char} {st : Store} {buf : Str}
    (h : splitAtDelim d buf = none) :
    ProcessBuf cm d st buf = (buf, st, .noCommand) := by
  simp [ProcessBuf, ProcessGo, h]

/-- Process discards a complete blank line and continues on the rest. -/
theorem ProcessBuf_blank_step {cm : CommandMap} {d : Char} {st : Store}
    {buf line rest : Str} (h : splitAtDelim d buf = some (line, rest))
    (hb : line.all (fun c => c == ' ') = true) :
    ProcessBuf cm d st buf = ProcessBuf cm d st rest := by
  have hlt := splitAtDelim_rest_length h
  simp only [ProcessBuf, ProcessGo, h, hb, if_true]
  exact processGo_fuel_eq cm d buf.length (rest.length + 1) st rest (by omega) (by omega)

/-- Process hands the first complete non-blank line to ValidateApply. -/
theorem ProcessBuf_line_step {cm : CommandMap} {d : Char} {st : Store}
    {buf line rest : Str} (h : splitAtDelim d buf = some (line, rest))
    (hb : line.all (fun c => c == ' ') = false) :
    ProcessBuf cm d st buf
      = (rest, (ValidateApply cm st line).1, liftRes (ValidateApply cm st line).2) := by
  simp [ProcessBuf, ProcessGo, h, hb]

/-! ## Claim C1: all-or-nothing application -/

/-- Claim C1: application of a command line is all-or-nothing.  Whenever
ValidateApply reports any error, the returned store is exactly the input
store, so no ArgumentSpec setter ran, not even for arguments earlier in the
line that individually passed, and the error result carries no callback
record, so the command callback is not invoked either. -/
theorem validateApply_error_leaves_store (cm : CommandMap) (st : Store) (line : Str)
    (e : FlpException) (h : (ValidateApply cm st line).2 = .error e) :
    (ValidateApply cm st line).1 = st := by
  cases htok : tokenize line with
  | nil => simp [ValidateApply, htok]
  | cons q args =>
    cases hc : alistFind cm q with
    | none => simp [ValidateApply, htok, hc]
    | some command =>
      cases hr : resolveArgs command.arg_map args [] [] with
      | error e2 => simp [ValidateApply, htok, hc, hr]
      | ok pu =>
        obtain ⟨pre, und⟩ := pu
        cases hm : firstMissingRequired command.arg_map pre with
        | some r => simp [ValidateApply, htok, hc, hr, hm]
        | none => simp [ValidateApply, htok, hc, hr, hm] at h

/-- Witness for C1: the first argument of the line passes individually, the
second fails coercion, and the store bound to both setters is untouched. -/
theorem validateApply_error_leaves_store_witness :
    (ValidateApply cmW1 st0 (chars "test a=1 b=zz")).2
      = .error (.invalidArgumentError (chars "b=zz value is not numeric"))
    ∧ (ValidateApply cmW1 st0 (chars "test a=1 b=zz")).1 = st0 :=
  ⟨rfl, validateApply_error_leaves_store cmW1 st0 (chars "test a=1 b=zz")
    (.invalidArgumentError (chars "b=zz value is not numeric")) rfl⟩

/-! ## Claim C2: unconditional consumption of one non-blank line -/

theorem consume_process_aux (cm : CommandMap) (d : Char) (st : Store) :
    ∀ (fuel : Nat) (buf line rest : Str), buf.length < fuel →
      consumeSpecGo d fuel buf = some (line, rest) →
      ProcessBuf cm d st buf
          = (rest, (ValidateApply cm st line).1, liftRes (ValidateApply cm st line).2)
        ∧ line.all (fun c => c == ' ') = false := by
  intro fuel
  induction fuel with
  | zero => intro buf line rest h hc; omega
  | succ g ih =>
    intro buf line rest hlen hc
    simp only [consumeSpecGo] at hc
    cases hs : splitAtDelim d buf with
    | none => rw [hs] at hc; simp at hc
    | some p =>
      obtain ⟨l2, r2⟩ := p
      rw [hs] at hc
      have hlt := splitAtDelim_rest_length hs
      by_cases hb : (l2.all (fun c => c == ' ')) = true
      · simp only [hb, if_true] at hc
        have hres := ih r2 line rest (by omega) hc
        exact ⟨(ProcessBuf_blank_step hs hb).trans hres.1, hres.2⟩
      · rw [Bool.not_eq_true] at hb
        simp only [hb, Bool.false_eq_true, if_false, Option.some.injEq, Prod.mk.injEq] at hc
        obtain ⟨hl, hr⟩ := hc
        subst hl; subst hr
        exact ⟨ProcessBuf_line_step hs hb, hb⟩

/-- Claim C2: when the buffer holds a complete non-blank line, one Process
call removes exactly the prefix up to and including the delimiter of the
first non-blank line, together with the preceding blank lines, and hands
exactly that line to ValidateApply.  The remaining buffer does not depend
on the validation outcome, so a failing line is still consumed and later
complete lines stay buffered for subsequent calls. -/
theorem process_consumes_one_nonblank_line (cm : CommandMap) (d : Char) (st : Store)
    (buf line rest : Str) (h : consumeSpec d buf = some (line, rest)) :
    ProcessBuf cm d st buf
        = (rest, (ValidateApply cm st line).1, liftRes (ValidateApply cm st line).2)
      ∧ line.all (fun c => c == ' ') = false :=
  consume_process_aux cm d st (buf.length + 1) buf line rest (by omega) h

/-- Witness for C2: a buffer whose first non-blank line has an unknown
qualifier; the buffer still advances past it and keeps the next line. -/
theorem process_consumes_one_nonblank_line_witness :
    consumeSpec '\n' (chars "\n bad\ntest\n") = some (chars " bad", chars "test\n")
    ∧ (ProcessBuf cmW1 '\n' st0 (chars "\n bad\ntest\n")
        = (chars "test\n", (ValidateApply cmW1 st0 (chars " bad")).1,
           liftRes (ValidateApply cmW1 st0 (chars " bad")).2)
      ∧ (chars " bad").all (fun c => c == ' ') = false) :=
  ⟨by decide, process_consumes_one_nonblank_line cmW1 '\n' st0
    (chars "\n bad\ntest\n") (chars " bad") (chars "test\n") (by decide)⟩

/-! ## Claim C9: blank buffers collapse to a no-op -/

theorem splitAtDelim_of_spaces {d : Char} (hd : d ≠ ' ') :
    ∀ (sp rest : Str), (∀ c ∈ sp, c = ' ') →
      splitAtDelim d (sp ++ d :: rest) = some (sp, rest) := by
  intro sp
  induction sp with
  | nil => intro rest h; simp [splitAtDelim]
  | cons c cs ih =>
    intro rest h
    have hc : c = ' ' := h c (by simp)
    have hcd : ¬ c = d := by
      rw [hc]; exact fun he => hd he.symm
    simp [splitAtDelim, hcd, ih rest (fun x hx => h x (List.mem_cons_of_mem c hx))]

theorem blanksOnlyAux_shape {d : Char} :
    ∀ (buf : Str) (pending : Bool), blanksOnlyAux d pending buf = true →
      (buf = [] ∧ pending = false)
      ∨ ∃ sp rest, buf = sp ++ d :: rest ∧ (∀ c ∈ sp, c = ' ')
          ∧ blanksOnlyAux d false rest = true := by
  intro buf
  induction buf with
  | nil =>
    intro pending h
    left
    simp only [blanksOnlyAux, Bool.not_eq_true'] at h
    exact ⟨rfl, h⟩
  | cons c cs ih =>
    intro pending h
    by_cases hc : c = d
    · right
      refine ⟨[], cs, by simp [hc], by simp, ?_⟩
      simpa [blanksOnlyAux, hc] using h
    · by_cases hsp : c = ' '
      · simp only [blanksOnlyAux, if_neg hc, if_pos hsp] at h
        rcases ih true h with ⟨_, hpend⟩ | ⟨sp, rest, heq, hall, hres⟩
        · exact absurd hpend (by simp)
        · right
          refine ⟨c :: sp, rest, by simp [heq], ?_, hres⟩
          intro x hx
          rcases List.mem_cons.mp hx with hx | hx
          · rw [hx]; exact hsp
          · exact hall x hx
      · simp [blanksOnlyAux, hc, hsp] at h

theorem blank_noop_aux (cm : CommandMap) (d : Char) (st : Store) (hd : d ≠ ' ') :
    ∀ (n : Nat) (buf : Str), buf.length ≤ n → blanksOnly d buf = true →
      ProcessBuf cm d st buf = ([], st, .noCommand) := by
  intro n
  induction n with
  | zero =>
    intro buf hl _
    have hnil : buf = [] := List.eq_nil_of_length_eq_zero (Nat.le_zero.mp hl)
    subst hnil
    exact ProcessBuf_delim_none (by simp [splitAtDelim])
  | succ m ih =>
    intro buf hl hb
    rcases blanksOnlyAux_shape buf false hb with ⟨hnil, _⟩ | ⟨sp, rest, heq, hall, hres⟩
    · subst hnil
      exact ProcessBuf_delim_none (by simp [splitAtDelim])
    · subst heq
      have hsplit := splitAtDelim_of_spaces hd sp rest hall
      have hall2 : sp.all (fun c => c == ' ') = true := by
        rw [List.all_eq_true]
        intro c hcm
        simpa using hall c hcm
      rw [ProcessBuf_blank_step hsplit hall2]
      apply ih rest _ hres
      simp at hl
      omega

/-- Claim C9: a buffer consisting solely of delimiters and space runs each
terminated by a delimiter makes Process return no-command, run no command
logic, and leave the buffer empty; and in general any complete blank line
in front of the buffer is discarded inside the same Process call without
counting as a processed command. -/
theorem blank_buffer_noop (cm : CommandMap) (d : Char) (st : Store) (buf : Str)
    (hd : d ≠ ' ') (hb : blanksOnly d buf = true) :
    ProcessBuf cm d st buf = ([], st, .noCommand)
    ∧ ∀ (sp rest : Str), (∀ c ∈ sp, c = ' ') →
        ProcessBuf cm d st (sp ++ d :: rest) = ProcessBuf cm d st rest := by
  refine ⟨blank_noop_aux cm d st hd buf.length buf (Nat.le_refl _) hb, ?_⟩
  intro sp rest hall
  refine ProcessBuf_blank_step (splitAtDelim_of_spaces hd sp rest hall) ?_
  rw [List.all_eq_true]
  intro c hcm
  simpa using hall c hcm

/-- Witness for C9: two spaced blank lines and two bare delimiters are
collapsed by a single Process call, emptying the buffer. -/
theorem blank_buffer_noop_witness :
    blanksOnly '\n' (chars "  \n\n \n\n") = true
    ∧ ProcessBuf cmW1 '\n' st0 (chars "  \n\n \n\n") = ([], st0, .noCommand) :=
  ⟨by decide, (blank_buffer_noop cmW1 '\n' st0 (chars "  \n\n \n\n")
      (by decide) (by decide)).1⟩

/-! ## Claim C7: chunk-boundary independence of Feed -/

/-- Claim C7: feeding a byte sequence split across any number of Feed calls
yields the same engine state as feeding the concatenation at once, and
hence every sequence of Process outcomes, final buffer and final store
agree.  Feed only appends to the buffer, so this is associativity of the
append on the buffer. -/
theorem feed_chunk_independence (e : Engine) (chunks : List Str) :
    FeedAll e chunks = Feed e chunks.flatten
    ∧ ∀ (n : Nat) (st : Store),
        ProcessN n (FeedAll e chunks) st = ProcessN n (Feed e chunks.flatten) st := by
  have h : ∀ (e : Engine), FeedAll e chunks = Feed e chunks.flatten := by
    induction chunks with
    | nil => intro e; simp [FeedAll, Feed]
    | cons c cs ih =>
      intro e
      have : FeedAll e (c :: cs) = FeedAll (Feed e c) cs := by
        simp [FeedAll]
      rw [this, ih (Feed e c)]
      simp [Feed, List.append_assoc]
  exact ⟨h e, fun n st => by rw [h e]⟩

/-! ## Claim C8: duplicate registration fails and preserves the first -/

theorem alistFind_append_self {α : Type _} :
    ∀ (cm : List (Str × α)) (q : Str) (s : α), alistFind cm q = none →
      alistFind (cm ++ [(q, s)]) q = some s := by
  intro cm q s
  induction cm with
  | nil => intro _; simp [alistFind]
  | cons p rest ih =>
    intro h
    obtain ⟨k, w⟩ := p
    by_cases hq : q = k
    · simp [alistFind, hq] at h
    · simp only [List.cons_append, alistFind, if_neg hq] at h ⊢
      exact ih h

/-- Claim C8: registering a second command under an already registered
qualifier returns an error and leaves the registry untouched: the map after
the failed call equals the map after the first registration, the lookup
still yields the first CommandSpec, and every Process call behaves exactly
as before the failed attempt. -/
theorem register_duplicate_preserves_first (cm : CommandMap) (q : Str)
    (a1 a2 : List (Str × ArgumentSpec)) (b1 b2 : Bool)
    (h : alistFind cm q = none) :
    (RegisterCommand cm q a1 b1).2 = .ok ()
    ∧ (RegisterCommand (RegisterCommand cm q a1 b1).1 q a2 b2).2
        = .error (.invalidArgumentError (q ++ chars " is already registered"))
    ∧ (RegisterCommand (RegisterCommand cm q a1 b1).1 q a2 b2).1
        = (RegisterCommand cm q a1 b1).1
    ∧ alistFind (RegisterCommand (RegisterCommand cm q a1 b1).1 q a2 b2).1 q
        = some ⟨a1, b1⟩
    ∧ ∀ (d : Char) (st : Store) (buf : Str),
        ProcessBuf (RegisterCommand (RegisterCommand cm q a1 b1).1 q a2 b2).1 d st buf
          = ProcessBuf (RegisterCommand cm q a1 b1).1 d st buf := by
  have h1 : (RegisterCommand cm q a1 b1).1 = cm ++ [(q, ⟨a1, b1⟩)] := by
    simp [RegisterCommand, h]
  have hfind : alistFind (cm ++ [(q, ⟨a1, b1⟩)]) q = some (⟨a1, b1⟩ : CommandSpec) :=
    alistFind_append_self cm q ⟨a1, b1⟩ h
  have h2 : RegisterCommand (cm ++ [(q, ⟨a1, b1⟩)]) q a2 b2
      = (cm ++ [(q, ⟨a1, b1⟩)],
         .error (.invalidArgumentError (q ++ chars " is already registered"))) := by
    simp [RegisterCommand, hfind]
  refine ⟨by simp [RegisterCommand, h], ?_, ?_, ?_, ?_⟩
  · rw [h1, h2]
  · rw [h1, h2]
  · rw [h1, h2]
    exact hfind
  · intro d st buf
    rw [h1, h2]

/-- Witness for C8: registering the qualifier test twice on an empty
registry. -/
theorem register_duplicate_preserves_first_witness :
    (RegisterCommand [] (chars "test") [] true).2 = .ok ()
    ∧ (RegisterCommand (RegisterCommand [] (chars "test") [] true).1
        (chars "test") [(chars "a", ⟨true, true, chars "x", none⟩)] false).2
        = .error (.invalidArgumentError (chars "test is already registered"))
    ∧ (RegisterCommand (RegisterCommand [] (chars "test") [] true).1
        (chars "test") [(chars "a", ⟨true, true, chars "x", none⟩)] false).1
        = (RegisterCommand [] (chars "test") [] true).1
    ∧ alistFind (RegisterCommand (RegisterCommand [] (chars "test") [] true).1
        (chars "test") [(chars "a", ⟨true, true, chars "x", none⟩)] false).1
        (chars "test") = some ⟨[], true⟩ :=
  have h := register_duplicate_preserves_first [] (chars "test") []
    [(chars "a", ⟨true, true, chars "x", none⟩)] true false rfl
  ⟨h.1, h.2.1, h.2.2.1, h.2.2.2.1⟩

/-! ## Claim C3: integer and float kind acceptance -/

/-- A declared optional integer argument named a, bound to cell x. -/
def specInt : ArgumentSpec := ⟨true, false, chars "x", none⟩

/-- A declared optional float argument named a, bound to cell x. -/
def specFloat : ArgumentSpec := ⟨true, true, chars "x", none⟩

def amapInt : List (Str × ArgumentSpec) := [(chars "a", specInt)]

def amapFloat : List (Str × ArgumentSpec) := [(chars "a", specFloat)]

/-- The token a=value. -/
def aTok (v : Str) : Str := 'a' :: '=' :: v

theorem splitEq_aTok (v : Str) : splitEq (aTok v) = some (chars "a", v) := rfl

/-- Claim C3: against the integer spec a numeric token is accepted exactly
when the full-substring integer parse succeeds; against the float spec it
is accepted exactly when either full-substring parse succeeds; and a value
accepted by neither parse is rejected as non-numeric whatever the declared
spec is.  The parses cover the complete strtol and strtof grammars:
leading whitespace, signs, decimal and hexadecimal mantissas with
exponents, and the inf, infinity and nan forms. -/
theorem numeric_kind_acceptance (v : Str) :
    (isOkB (resolveArgs amapInt [aTok v] [] []) = (parseIntFull v).isSome)
    ∧ (isOkB (resolveArgs amapFloat [aTok v] [] [])
        = ((parseIntFull v).isSome || (parseFloatFull v).isSome))
    ∧ (∀ sp : ArgumentSpec, v ≠ [] → parseIntFull v = none → parseFloatFull v = none →
        resolveArgs [(chars "a", sp)] [aTok v] [] []
          = .error (.invalidArgumentError (aTok v ++ chars " value is not numeric"))) := by
  by_cases hv : v = []
  · subst hv
    exact ⟨rfl, rfl, fun sp hne => absurd rfl hne⟩
  · have hvE : v.isEmpty = false := by
      cases v with
      | nil => exact absurd rfl hv
      | cons c cs => rfl
    refine ⟨?_, ?_, ?_⟩
    · cases hI : parseIntFull v with
      | none =>
        cases hF : parseFloatFull v with
        | none => simp [resolveArgs, splitEq_aTok, hvE, hI, hF, isOkB]
        | some q =>
          simp [resolveArgs, splitEq_aTok, hvE, hI, hF, amapInt, specInt, alistFind, isOkB]
      | some i =>
        cases hF : parseFloatFull v with
        | none =>
          simp [resolveArgs, splitEq_aTok, hvE, hI, hF, amapInt, specInt, alistFind, isOkB]
        | some q =>
          simp [resolveArgs, splitEq_aTok, hvE, hI, hF, amapInt, specInt, alistFind, isOkB]
    · cases hI : parseIntFull v with
      | none =>
        cases hF : parseFloatFull v with
        | none => simp [resolveArgs, splitEq_aTok, hvE, hI, hF, isOkB]
        | some q =>
          simp [resolveArgs, splitEq_aTok, hvE, hI, hF, amapFloat, specFloat, alistFind, isOkB]
      | some i =>
        cases hF : parseFloatFull v with
        | none =>
          simp [resolveArgs, splitEq_aTok, hvE, hI, hF, amapFloat, specFloat, alistFind, isOkB]
        | some q =>
          simp [resolveArgs, splitEq_aTok, hvE, hI, hF, amapFloat, specFloat, alistFind, isOkB]
    · intro sp _ hI hF
      simp [resolveArgs, splitEq_aTok, hvE, hI, hF]

/-- Witness for C3: a=5 passes the integer spec, a=5.0 fails it, both pass
the float spec; the strtof forms inf (float-spec accepted, integer-spec
rejected) and the strtol form tab-then-5 (integer-spec accepted) behave as
in the program; and a non-numeric value a=zz is rejected whatever the
spec. -/
theorem numeric_kind_acceptance_witness :
    ((parseIntFull (chars "5")).isSome = true
      ∧ isOkB (resolveArgs amapInt [aTok (chars "5")] [] []) = true)
    ∧ ((parseIntFull (chars "5.0")) = none
      ∧ (parseFloatFull (chars "5.0")).isSome = true
      ∧ isOkB (resolveArgs amapInt [aTok (chars "5.0")] [] []) = false
      ∧ isOkB (resolveArgs amapFloat [aTok (chars "5.0")] [] []) = true
      ∧ isOkB (resolveArgs amapFloat [aTok (chars "5")] [] []) = true)
    ∧ (parseFloatFull (chars "inf") = some (.inf false)
      ∧ isOkB (resolveArgs amapFloat [aTok (chars "inf")] [] []) = true
      ∧ isOkB (resolveArgs amapInt [aTok (chars "inf")] [] []) = false)
    ∧ (parseIntFull (chars "\t5") = some 5
      ∧ isOkB (resolveArgs amapInt [aTok (chars "\t5")] [] []) = true)
    ∧ resolveArgs [(chars "a", specInt)] [aTok (chars "zz")] [] []
        = .error (.invalidArgumentError (aTok (chars "zz") ++ chars " value is not numeric")) :=
  ⟨⟨by decide, by rw [(numeric_kind_acceptance (chars "5")).1]; decide⟩,
   ⟨by decide, by decide,
    by rw [(numeric_kind_acceptance (chars "5.0")).1]; decide,
    by rw [(numeric_kind_acceptance (chars "5.0")).2.1]; decide,
    by rw [(numeric_kind_acceptance (chars "5")).2.1]; decide⟩,
   ⟨by decide,
    by rw [(numeric_kind_acceptance (chars "inf")).2.1]; decide,
    by rw [(numeric_kind_acceptance (chars "inf")).1]; decide⟩,
   ⟨by decide, by rw [(numeric_kind_acceptance (chars "\t5")).1]; decide⟩,
   (numeric_kind_acceptance (chars "zz")).2.2 specInt (by decide) (by decide) (by decide)⟩

/-! ## Claim C5: required arguments are enforced -/

theorem firstMissingRequired_some {amap : List (Str × ArgumentSpec)} {pre : RawMap}
    {r : Str} (h : firstMissingRequired amap pre = some r) :
    ∃ sp, (r, sp) ∈ amap ∧ sp.optional = false ∧ alistFind pre r = none := by
  induction amap with
  | nil => simp [firstMissingRequired] at h
  | cons p rest ih =>
    obtain ⟨n, sp⟩ := p
    by_cases hc : (!sp.optional && (alistFind pre n).isNone) = true
    · simp only [firstMissingRequired, hc, if_true, Option.some.injEq] at h
      subst h
      rw [Bool.and_eq_true] at hc
      obtain ⟨h1, h2⟩ := hc
      exact ⟨sp, List.mem_cons_self _ _, (by simpa using h1),
        Option.isNone_iff_eq_none.mp h2⟩
    · simp only [firstMissingRequired, hc, if_false, Bool.false_eq_true] at h
      obtain ⟨sp2, hmem, hopt, hfind⟩ := ih h
      exact ⟨sp2, List.mem_cons_of_mem _ hmem, hopt, hfind⟩

theorem firstMissingRequired_none_iff (amap : List (Str × ArgumentSpec)) (pre : RawMap) :
    firstMissingRequired amap pre = none
      ↔ ∀ p ∈ amap, p.2.optional = false → (alistFind pre p.1).isSome := by
  induction amap with
  | nil => simp [firstMissingRequired]
  | cons p rest ih =>
    obtain ⟨n, sp⟩ := p
    by_cases hc : (!sp.optional && (alistFind pre n).isNone) = true
    · simp only [firstMissingRequired, hc, if_true]
      have hc2 := hc
      rw [Bool.and_eq_true] at hc2
      obtain ⟨h1, h2⟩ := hc2
      constructor
      · intro h; exact absurd h (by simp)
      · intro hall
        have := hall (n, sp) (List.mem_cons_self _ _) ((by simpa using h1))
        rw [Option.isNone_iff_eq_none.mp h2] at this
        exact absurd this (by simp)
    · simp only [firstMissingRequired, hc, if_false, Bool.false_eq_true, ih]
      constructor
      · intro hall p2 hp2 hopt
        rcases List.mem_cons.mp hp2 with hp2 | hp2
        · have hn : p2.1 = n := by rw [hp2]
          have hso : sp.optional = false := by
            have h3 := hopt
            rw [hp2] at h3
            exact h3
          rw [hn]
          rw [hso] at hc
          simp only [Bool.not_false, Bool.true_and] at hc
          cases hfind : alistFind pre n with
          | none => rw [hfind] at hc; exact absurd rfl hc
          | some w => simp
        · exact hall p2 hp2 hopt
      · intro hall p2 hp2 hopt
        exact hall p2 (List.mem_cons_of_mem _ hp2) hopt

/-- Claim C5: once the tokens of the line resolve to the maps (pre, und),
any required declared argument missing from the matched map makes
ValidateApply fail with the error naming that argument and produce no
callback record; when no required argument is missing the line goes on to
apply the setters and succeed, and missing-none is equivalent to every
required declared argument being present in the matched map. -/
theorem required_arguments_enforced (cm : CommandMap) (st : Store) (line : Str)
    (q : Str) (args : List Str) (command : CommandSpec) (pre und : RawMap)
    (htok : tokenize line = q :: args)
    (hcmd : alistFind cm q = some command)
    (hres : resolveArgs command.arg_map args [] [] = .ok (pre, und)) :
    (∀ r, firstMissingRequired command.arg_map pre = some r →
        ValidateApply cm st line
            = (st, .error (.invalidArgumentError (r ++ chars " is required")))
          ∧ ∃ sp, (r, sp) ∈ command.arg_map ∧ sp.optional = false
              ∧ alistFind pre r = none)
    ∧ (firstMissingRequired command.arg_map pre = none →
        ValidateApply cm st line
          = (applyAll command.arg_map pre st,
             .ok (if command.has_callback then some (pre, und) else none)))
    ∧ (firstMissingRequired command.arg_map pre = none
        ↔ ∀ p ∈ command.arg_map, p.2.optional = false → (alistFind pre p.1).isSome) := by
  refine ⟨?_, ?_, firstMissingRequired_none_iff _ _⟩
  · intro r hm
    exact ⟨by simp [ValidateApply, htok, hcmd, hres, hm], firstMissingRequired_some hm⟩
  · intro hm
    simp [ValidateApply, htok, hcmd, hres, hm]

/-- The spec example command: required float argument required_arg and
optional float argument optional_arg, with a callback. -/
def cmW5 : CommandMap :=
  [(chars "test",
    ⟨[(chars "required_arg", ⟨false, true, chars "r", none⟩),
      (chars "optional_arg", ⟨true, true, chars "o", none⟩)], true⟩)]

/-- Witness for C5: supplying only the optional argument fails naming
required_arg and produces no callback record; supplying the required
argument alone succeeds. -/
theorem required_arguments_enforced_witness :
    ValidateApply cmW5 st0 (chars "test optional_arg=2")
        = (st0, .error (.invalidArgumentError (chars "required_arg" ++ chars " is required")))
    ∧ ValidateApply cmW5 st0 (chars "test required_arg=1")
        = (applyAll [(chars "required_arg", (⟨false, true, chars "r", none⟩ : ArgumentSpec)),
                     (chars "optional_arg", ⟨true, true, chars "o", none⟩)]
             [(chars "required_arg", NumVal.fin 1)] st0,
           .ok (some ([(chars "required_arg", NumVal.fin 1)], []))) :=
  ⟨((required_arguments_enforced cmW5 st0 (chars "test optional_arg=2")
      (chars "test") [chars "optional_arg=2"]
      ⟨[(chars "required_arg", ⟨false, true, chars "r", none⟩),
        (chars "optional_arg", ⟨true, true, chars "o", none⟩)], true⟩
      [(chars "optional_arg", NumVal.fin 2)] []
      (by decide) rfl rfl).1 (chars "required_arg") rfl).1,
   (required_arguments_enforced cmW5 st0 (chars "test required_arg=1")
      (chars "test") [chars "required_arg=1"]
      ⟨[(chars "required_arg", ⟨false, true, chars "r", none⟩),
        (chars "optional_arg", ⟨true, true, chars "o", none⟩)], true⟩
      [(chars "required_arg", NumVal.fin 1)] []
      (by decide) rfl rfl).2.1 rfl⟩

/-! ## Claim C6: undeclared arguments -/

theorem alistFind_mapInsert_self : ∀ (m : RawMap) (n : Str) (q : NumVal),
    alistFind (mapInsert m n q) n = some q := by
  intro m n q
  induction m with
  | nil => simp [mapInsert, alistFind]
  | cons p rest ih =>
    obtain ⟨k, w⟩ := p
    by_cases hk : n = k
    · simp [mapInsert, alistFind, hk]
    · simp [mapInsert, alistFind, hk, ih]

/-- The error behaviour of the token loop never depends on the undefined
map accumulated so far. -/
theorem resolveArgs_err_und_independent (amap : List (Str × ArgumentSpec)) :
    ∀ (ts : List Str) (pre u1 u2 : RawMap),
      errPart (resolveArgs amap ts pre u1) = errPart (resolveArgs amap ts pre u2) := by
  intro ts
  induction ts with
  | nil => intro pre u1 u2; rfl
  | cons t rest ih =>
    intro pre u1 u2
    simp only [resolveArgs]
    cases hs : splitEq t with
    | none => rfl
    | some p =>
      obtain ⟨n, v⟩ := p
      by_cases hemp : v.isEmpty = true
      · simp [hemp]
      · rw [Bool.not_eq_true] at hemp
        simp only [hemp, Bool.false_eq_true, if_false]
        by_cases hnum : ((parseIntFull v).isNone && (parseFloatFull v).isNone) = true
        · simp [hnum]
        · rw [Bool.not_eq_true] at hnum
          simp only [hnum, Bool.false_eq_true, if_false]
          cases hfind : alistFind amap n with
          | none => exact ih pre _ _
          | some sp =>
            by_cases htype : (!sp.is_float && (parseIntFull v).isNone) = true
            · simp [htype]
            · rw [Bool.not_eq_true] at htype
              simp only [htype, Bool.false_eq_true, if_false]
              cases hval : sp.validator with
              | none => exact ih _ _ _
              | some vld =>
                by_cases hok : vld (floatValOf v) = true
                · simp only [hok, if_true]
                  exact ih _ _ _
                · rw [Bool.not_eq_true] at hok
                  simp only [hok, Bool.false_eq_true, if_false]

/-- Claim C6: an argument token whose name is not declared for the command
is neither type-checked nor validator-checked; the loop just records its
coerced numeric value in the unmatched map, with last write winning, and
proceeds, and the accumulated unmatched map never influences whether the
line validates nor which error it reports. -/
theorem undeclared_argument_behavior (amap : List (Str × ArgumentSpec))
    (t n v : Str) (rest : List Str) (pre und : RawMap)
    (hsplit : splitEq t = some (n, v))
    (hundecl : alistFind amap n = none)
    (hvE : v.isEmpty = false)
    (hnum : ((parseIntFull v).isNone && (parseFloatFull v).isNone) = false) :
    resolveArgs amap (t :: rest) pre und
        = resolveArgs amap rest pre (mapInsert und n (floatValOf v))
    ∧ alistFind (mapInsert und n (floatValOf v)) n = some (floatValOf v)
    ∧ (∀ (ts : List Str) (pre2 u1 u2 : RawMap),
        errPart (resolveArgs amap ts pre2 u1) = errPart (resolveArgs amap ts pre2 u2)) := by
  refine ⟨?_, alistFind_mapInsert_self und n (floatValOf v),
    fun ts pre2 u1 u2 => resolveArgs_err_und_independent amap ts pre2 u1 u2⟩
  simp only [resolveArgs, hsplit, hvE, hnum, Bool.false_eq_true, if_false, hundecl]

/-- Witness for C6: the undeclared token other=10 is recorded and the loop
continues; the insert overwrites an earlier value 3 recorded under the same
undeclared name, so the last write wins. -/
theorem undeclared_argument_behavior_witness :
    resolveArgs amapInt [chars "other=10"] [] [(chars "other", NumVal.fin 3)]
        = resolveArgs amapInt [] []
            (mapInsert [(chars "other", NumVal.fin 3)] (chars "other")
              (floatValOf (chars "10")))
    ∧ alistFind (mapInsert [(chars "other", NumVal.fin 3)] (chars "other")
        (floatValOf (chars "10"))) (chars "other") = some (floatValOf (chars "10")) :=
  have h := undeclared_argument_behavior amapInt (chars "other=10") (chars "other")
    (chars "10") [] [] [(chars "other", NumVal.fin 3)] rfl rfl rfl rfl
  ⟨h.1, h.2.1⟩

/-! ## Claim C10: duplicate occurrences of a declared argument -/

/-- A validator accepting exactly the nonnegative finite values. -/
def vPos : NumVal → Bool
  | .fin q => decide (0 ≤ q)
  | _ => false

/-- A declared optional float argument a with validator vPos, bound to
cell x. -/
def specVal : ArgumentSpec := ⟨true, true, chars "x", some vPos⟩

def amapD : List (Str × ArgumentSpec) := [(chars "a", specVal)]

/-- A registry with the one command cmd over amapD, with a callback. -/
def cmD : CommandMap := [(chars "cmd", ⟨amapD, true⟩)]

/-- ValidateApply in terms of its stages, success case. -/
theorem validateApply_eq_of_resolved {cm : CommandMap} {st : Store} {line q : Str}
    {args : List Str} {command : CommandSpec} {pre und : RawMap}
    (htok : tokenize line = q :: args)
    (hcmd : alistFind cm q = some command)
    (hres : resolveArgs command.arg_map args [] [] = .ok (pre, und))
    (hmiss : firstMissingRequired command.arg_map pre = none) :
    ValidateApply cm st line
      = (applyAll command.arg_map pre st,
         .ok (if command.has_callback then some (pre, und) else none)) := by
  simp [ValidateApply, htok, hcmd, hres, hmiss]

/-- ValidateApply in terms of its stages, token-loop error case. -/
theorem validateApply_eq_of_resolve_error {cm : CommandMap} {st : Store} {line q : Str}
    {args : List Str} {command : CommandSpec} {e : FlpException}
    (htok : tokenize line = q :: args)
    (hcmd : alistFind cm q = some command)
    (hres : resolveArgs command.arg_map args [] [] = .error e) :
    ValidateApply cm st line = (st, .error e) := by
  simp [ValidateApply, htok, hcmd, hres]

/-- Claim C10: when a line supplies the same declared argument twice, each
occurrence is coerced and run through the validator on its own, so a later
occurrence that the validator rejects fails the whole line even though the
earlier occurrence passed, and when both pass, the matched map records the
later value and the setter writes the later value to the bound cell. -/
theorem duplicate_declared_argument (line t1 t2 v1 v2 : Str) (q1 q2 : ℚ) (st : Store)
    (htok : tokenize line = [chars "cmd", t1, t2])
    (h1 : splitEq t1 = some (chars "a", v1))
    (h2 : splitEq t2 = some (chars "a", v2))
    (hf1 : parseFloatFull v1 = some (.fin q1))
    (hf2 : parseFloatFull v2 = some (.fin q2))
    (hq1 : 0 ≤ q1) :
    (0 ≤ q2 →
      ValidateApply cmD st line
        = (updateStore st (chars "x") (.fin q2),
           .ok (some ([(chars "a", NumVal.fin q2)], []))))
    ∧ (¬ 0 ≤ q2 →
      ValidateApply cmD st line
        = (st, .error (.validatorError (t2 ++ chars " validation failed")))) := by
  have hvE1 : v1.isEmpty = false := by
    cases v1 with
    | nil => rw [show parseFloatFull [] = none from rfl] at hf1; cases hf1
    | cons c cs => rfl
  have hvE2 : v2.isEmpty = false := by
    cases v2 with
    | nil => rw [show parseFloatFull [] = none from rfl] at hf2; cases hf2
    | cons c cs => rfl
  have hval1 : floatValOf v1 = .fin q1 := by simp [floatValOf, hf1]
  have hval2 : floatValOf v2 = .fin q2 := by simp [floatValOf, hf2]
  have hres : resolveArgs amapD [t1, t2] [] []
      = resolveArgs amapD [t2] [(chars "a", .fin q1)] [] := by
    simp only [resolveArgs, h1, hvE1, Bool.false_eq_true, if_false, hf1, Option.isNone_some,
      Bool.and_false, amapD, alistFind, if_pos, specVal, Bool.not_true, Bool.false_and,
      hval1, vPos, decide_eq_true hq1, if_true, mapInsert]
  have hcmd : alistFind cmD (chars "cmd") = some ⟨amapD, true⟩ := rfl
  constructor
  · intro hq2
    have hres2 : resolveArgs amapD [t2] [(chars "a", .fin q1)] []
        = .ok ([(chars "a", .fin q2)], []) := by
      simp only [resolveArgs, h2, hvE2, Bool.false_eq_true, if_false, hf2, Option.isNone_some,
        Bool.and_false, amapD, alistFind, if_pos, specVal, Bool.not_true, Bool.false_and,
        hval2, vPos, decide_eq_true hq2, if_true, mapInsert]
    exact (validateApply_eq_of_resolved htok hcmd (hres.trans hres2) rfl).trans rfl
  · intro hq2
    have hres2 : resolveArgs amapD [t2] [(chars "a", .fin q1)] []
        = .error (.validatorError (t2 ++ chars " validation failed")) := by
      simp only [resolveArgs, h2, hvE2, Bool.false_eq_true, if_false, hf2, Option.isNone_some,
        Bool.and_false, amapD, alistFind, if_pos, specVal, Bool.not_true, Bool.false_and,
        hval2, vPos, decide_eq_false hq2, if_false]
    exact validateApply_eq_of_resolve_error htok hcmd (hres.trans hres2)

/-- Witness for C10: cmd a=1 a=2 applies and records the later value 2,
while cmd a=1 a=-3 fails validation on the later occurrence although a=1
passed. -/
theorem duplicate_declared_argument_witness :
    ValidateApply cmD st0 (chars "cmd a=1 a=2")
        = (updateStore st0 (chars "x") (.fin 2),
           .ok (some ([(chars "a", NumVal.fin 2)], [])))
    ∧ ValidateApply cmD st0 (chars "cmd a=1 a=-3")
        = (st0, .error (.validatorError (chars "a=-3" ++ chars " validation failed"))) :=
  ⟨(duplicate_declared_argument (chars "cmd a=1 a=2") (chars "a=1") (chars "a=2")
      (chars "1") (chars "2") 1 2 st0 (by decide) rfl rfl rfl rfl (by decide)).1 (by decide),
   (duplicate_declared_argument (chars "cmd a=1 a=-3") (chars "a=1") (chars "a=-3")
      (chars "1") (chars "-3") 1 (-3) st0 (by decide) rfl rfl rfl rfl (by decide)).2
     (by decide)⟩

/-! ## Claim C4: error kinds

The code has only three exception classes (flp.h lines 37 to 48).  A type
mismatch, a malformed argument and a missing required argument all raise
InvalidArgumentError and differ only in the message text; only a validator
rejection (ValidatorError) and an unknown qualifier (UnknownQualifierError)
have classes of their own. -/

/-- Counterexample to C4 as stated: a type mismatch (declared integer
argument given a=5.0) and a malformed argument (token a without an equals
sign) are both reported through the same exception class
InvalidArgumentError, so the TypeMismatch error kind is not distinct from
the MalformedArgument error kind. -/
theorem typeMismatch_not_distinct_counterexample :
    (ValidateApply cmW1 st0 (chars "test a=5.0")).2
        = .error (.invalidArgumentError (chars "a=5.0  should be int"))
    ∧ (ValidateApply cmW1 st0 (chars "test a")).2
        = .error (.invalidArgumentError (chars "Invalid argument: a"))
    ∧ (FlpException.invalidArgumentError (chars "a=5.0  should be int")).cls
        = (FlpException.invalidArgumentError (chars "Invalid argument: a")).cls :=
  ⟨rfl, rfl, rfl⟩

/-- Claim C4 amended: process reports its errors through the three
exception classes of the code.  A type mismatch is an InvalidArgumentError,
the same class as a malformed argument and a missing required argument,
distinguished from them only by the message text, while a validator
rejection is the distinct ValidatorError class and an unknown qualifier the
distinct UnknownQualifierError class. -/
theorem error_class_assignment :
    (ValidateApply cmW1 st0 (chars "test a=5.0")).2
        = .error (.invalidArgumentError (chars "a=5.0  should be int"))
    ∧ (ValidateApply cmW1 st0 (chars "test a")).2
        = .error (.invalidArgumentError (chars "Invalid argument: a"))
    ∧ (ValidateApply cmW1 st0 (chars "test a=")).2
        = .error (.invalidArgumentError (chars "a= incomplete pair"))
    ∧ (ValidateApply cmW1 st0 (chars "test a=zz")).2
        = .error (.invalidArgumentError (chars "a=zz value is not numeric"))
    ∧ (ValidateApply cmW5 st0 (chars "test optional_arg=2")).2
        = .error (.invalidArgumentError (chars "required_arg is required"))
    ∧ (ValidateApply cmD st0 (chars "cmd a=-3")).2
        = .error (.validatorError (chars "a=-3 validation failed"))
    ∧ (ValidateApply cmW1 st0 (chars "nope")).2
        = .error (.unknownQualifierError (chars "Unknown qualifier"))
    ∧ (FlpException.invalidArgumentError (chars "a=5.0  should be int")).cls
        = (FlpException.invalidArgumentError (chars "Invalid argument: a")).cls
    ∧ (FlpException.invalidArgumentError (chars "a=5.0  should be int")).cls
        = (FlpException.invalidArgumentError (chars "required_arg is required")).cls
    ∧ (FlpException.validatorError (chars "a=-3 validation failed")).cls
        ≠ (FlpException.invalidArgumentError (chars "a=5.0  should be int")).cls
    ∧ (FlpException.unknownQualifierError (chars "Unknown qualifier")).cls
        ≠ (FlpException.invalidArgumentError (chars "a=5.0  should be int")).cls
    ∧ (FlpException.unknownQualifierError (chars "Unknown qualifier")).cls
        ≠ (FlpException.validatorError (chars "a=-3 validation failed")).cls :=
  ⟨rfl, rfl, rfl, rfl, rfl, rfl, rfl, rfl, rfl, by decide, by decide, by decide⟩

end Flp
